import Mathlib

/-!
Verification of the daily-ai-news repository core against its design
specification.  Python strings are embedded as `List Char` (length, slicing
and concatenation coincide with Python's); `str.lower` is embedded as a
character-wise `Char.toLower`, and Python's substring test `t in p` as the
decidable infix relation on lists.  Fallible file reads are embedded as
`Option`.
-/

namespace DailyAiNews

/-- Embedding of Python `str.lower()` on our `List Char` strings
(character-wise ASCII lowercasing, which is what the repository's
English/Chinese titles exercise). -/
def lower (s : List Char) : List Char := s.map Char.toLower

/-- Embedding of Python `text.split("\n")` from `_split_chunks`
(daily_ai_news.py): split into the list of newline-free lines;
the empty string splits to one empty line, as in Python. -/
def splitLines : List Char → List (List Char)
  | [] => [[]]
  | c :: cs =>
    let r := splitLines cs
    if c = '\n' then [] :: r
    else
      match r with
      | [] => [[c]]
      | l :: ls => (c :: l) :: ls

/-- Embedding of Python `"\n".join(lines)`: the inverse of `splitLines`,
used to state the round-trip property of the chunker. -/
def joinLines : List (List Char) → List Char
  | [] => []
  | l :: ls =>
    match ls with
    | [] => l
    | _ :: _ => l ++ '\n' :: joinLines ls

/-- Newline-prefixed concatenation of lines, the tail shape of `joinLines`. -/
def psJoin (ls : List (List Char)) : List Char :=
  (ls.map (fun l => '\n' :: l)).flatten

/-- The accumulation loop of `_split_chunks` (daily_ai_news.py lines 404-412):
`for line in lines: if len(buf) + len(line) + 1 > max_len: chunks.append(buf);
buf = line else: buf = (buf + "\n" + line) if buf else line`. -/
def chunkLoop (maxLen : Nat) : List (List Char) → List (List Char) → List Char →
    List (List Char) × List Char
  | [], chunks, buf => (chunks, buf)
  | line :: rest, chunks, buf =>
    if buf.length + line.length + 1 > maxLen then
      chunkLoop maxLen rest (chunks ++ [buf]) line
    else
      chunkLoop maxLen rest chunks (if buf.isEmpty then line else buf ++ '\n' :: line)

/-- Embedding of `_split_chunks(text, max_len)` (daily_ai_news.py lines
400-413): return `[text]` when it already fits, otherwise split on newlines
and greedily pack lines into chunks, appending the final buffer if non-empty. -/
def split_chunks (text : List Char) (maxLen : Nat) : List (List Char) :=
  if text.length ≤ maxLen then [text]
  else
    let r := chunkLoop maxLen (splitLines text) [] []
    if r.2.isEmpty then r.1 else r.1 ++ [r.2]

/-- Embedding of `_is_duplicate(title, prev_titles, threshold)`
(daily_ai_news.py lines 144-147): `t = title.lower()[:threshold];
return any(t and t in p.lower() for p in prev_titles)`.  Python's substring
test `t in p` is embedded as the decidable infix relation; the call sites in
`main` use the default `threshold = 10`. -/
def is_duplicate (title : List Char) (prevTitles : List (List Char))
    (threshold : Nat) : Bool :=
  let t := (lower title).take threshold
  prevTitles.any (fun p => (!t.isEmpty) && decide (t <:+: lower p))

/-- Embedding of `save_prev_titles(titles)` (daily_ai_news.py lines 137-141):
the persisted dedup history is `titles[:80]`. -/
def save_prev_titles (titles : List (List Char)) : List (List Char) :=
  titles.take 80

/-- One subscriber record, mirroring the dict value written by
`subscribers.subscribe` (subscribers.py lines 41-46): chat id, optional
username, optional first name, and the subscription timestamp. -/
structure SubEntry where
  chatId : String
  username : Option String
  firstName : Option String
  subscribedAt : String
deriving DecidableEq

/-- The subscribers.json table: a JSON object, i.e. an association list from
chat-id keys to records, in insertion order with unique keys. -/
abbrev Registry := List (String × SubEntry)

/-- Python `key in data` on the subscribers dict. -/
def memKey (key : String) (d : Registry) : Bool :=
  d.any (fun kv => kv.1 == key)

/-- Embedding of `subscribe(chat_id, username, first_name)` (subscribers.py
lines 35-48): returns `(isNew, updated table)`; a present key leaves the
table unchanged and returns `False`, otherwise the new record is inserted. -/
def subscribe (chatId : String) (username firstName : Option String)
    (now : String) (d : Registry) : Bool × Registry :=
  if memKey chatId d then (false, d)
  else (true, d ++ [(chatId, ⟨chatId, username, firstName, now⟩)])

/-- Embedding of `unsubscribe(chat_id)` (subscribers.py lines 51-59):
returns `(wasPresent, updated table)`; `del data[key]` removes the entry
with that key. -/
def unsubscribe (chatId : String) (d : Registry) : Bool × Registry :=
  if memKey chatId d then (true, d.filter (fun kv => kv.1 != chatId))
  else (false, d)

/-- Embedding of `is_subscribed(chat_id)` (subscribers.py lines 62-63). -/
def is_subscribed (chatId : String) (d : Registry) : Bool :=
  memKey chatId d

/-- Embedding of `get_chat_ids()` (subscribers.py lines 66-67). -/
def get_chat_ids (d : Registry) : List String :=
  d.map (fun kv => kv.1)

/-- Embedding of `get_count()` (subscribers.py lines 70-71). -/
def get_count (d : Registry) : Nat :=
  d.length

/-- One registry command issued by the chat front end. -/
inductive SubOp where
  | sub (chatId : String) (username firstName : Option String) (now : String)
  | unsub (chatId : String)
deriving DecidableEq

/-- The chat id an operation addresses. -/
def opId : SubOp → String
  | .sub c _ _ _ => c
  | .unsub c => c

/-- Whether an operation is a subscribe. -/
def isSubOp : SubOp → Bool
  | .sub _ _ _ _ => true
  | .unsub _ => false

/-- Apply one command to the stored table (the front end discards the
returned flag when replaying). -/
def applyOp (d : Registry) (op : SubOp) : Registry :=
  match op with
  | .sub c u f n => (subscribe c u f n d).2
  | .unsub c => (unsubscribe c d).2

/-- Replay a command sequence from the empty table, as the file-backed store
does across the process lifetime. -/
def replay (ops : List SubOp) : Registry :=
  ops.foldl applyOp []

/-- Whether the last operation in `ops` addressed to `id` is a subscribe
(false when no operation addresses `id`). -/
def lastOpIsSubscribe (ops : List SubOp) (id : String) : Bool :=
  ops.foldl (fun acc op => if opId op = id then isSubOp op else acc) false

/-- The parsed report-cache file `report_cache.json` as read by
`get_cache_info` (daily_ai_news.py lines 386-394): a JSON object whose
`generated_at` and `report` fields are looked up with `.get` and may be
absent.  A missing or unreadable file is the `none` case at use sites. -/
structure CacheInfo where
  generatedAt : Option String
  report : Option String
deriving DecidableEq

/-- The outcome of a `/preview` command, as decided by `cmd_preview`
(bot.py lines 179-224). -/
inductive PreviewResult where
  | rejected
  | sentCached (chatId : String) (body : String)
  | generated (chatId : String)
deriving DecidableEq

/-- Number of calls to the external generation collaborator
(`generate_report`, hence the Claude API) that a preview outcome performs:
only the no-cache path runs `daily_ai_news.main`, which calls it once. -/
def previewGenCalls : PreviewResult → Nat
  | .generated _ => 1
  | _ => 0

/-- Embedding of the decision logic of `cmd_preview` (bot.py lines 179-224):
unsubscribed requesters are rejected; with a truthy cache dict whose
`report` field is truthy (present and non-empty) the cached body is sent to
the requester with `send_telegram(cached_report, target_ids=[chat_id])`;
otherwise `daily_ai_news.main(override_chat_ids=[chat_id])` regenerates. -/
def cmd_preview (chatId : String) (subscribed : Bool)
    (cache : Option CacheInfo) : PreviewResult :=
  if !subscribed then .rejected
  else
    match cache with
    | some info =>
      match info.report with
      | some r => if r = "" then .generated chatId else .sentCached chatId r
      | none => .generated chatId
    | none => .generated chatId

/-- One collected item; `main`'s dedup and title bookkeeping only read the
`title` field (the embedded titles are `List Char` strings). -/
structure Item where
  title : List Char
  url : List Char
deriving DecidableEq

/-- The two file-backed stores that `daily_ai_news.main` may write:
the report cache and the previous-titles dedup history. -/
structure Stores where
  reportCache : Option CacheInfo
  prevTitles : List (List Char)
deriving DecidableEq

/-- Embedding of the store effects of `daily_ai_news.main` (lines 460-573):
load previous titles, dedup-filter the fetched items, call the external
generation collaborator (`gen`, returning `none` when it raises), and only
on success write the report cache (`save_report_cache`) followed by the
capped title history (`save_prev_titles`).  The returned `Option String` is
the generated report (`none` when the run aborted). -/
def mainRun (fetched : List Item) (gen : List Item → Option String)
    (now : String) (st : Stores) : Option String × Stores :=
  let items := fetched.filter (fun i => !is_duplicate i.title st.prevTitles 10)
  match gen items with
  | none => (none, st)
  | some report =>
    (some report,
      { reportCache := some { generatedAt := some now, report := some report }
        prevTitles := save_prev_titles (items.map (fun i => i.title)) })

/-- A generation collaborator that always fails (raises), used to witness
the abort path of `mainRun`. -/
def genAlwaysFails : List Item → Option String := fun _ => none

/-- The deployed `version.json` descriptor as read by `_load_version_info`
(bot.py lines 292-298), with the `.get` defaults of `_on_startup` applied
at the use site. -/
structure VersionInfo where
  version : String
  date : String
  notes : List String
deriving DecidableEq

/-- The observable effects of the startup version check. -/
structure StartupResult where
  savedMarker : Option String
  broadcastTargets : List String
deriving DecidableEq

/-- Embedding of `_on_startup` (bot.py lines 314-355): with an unreadable or
empty `version.json` nothing happens; otherwise the marker is persisted
immediately, and unless the current version is empty or equals the stored
marker (`""` when no marker file exists, per `_get_last_version`), a change
note is sent to every current subscriber. -/
def on_startup (info : Option VersionInfo) (lastVersion : String)
    (subscriberIds : List String) : StartupResult :=
  match info with
  | none => { savedMarker := none, broadcastTargets := [] }
  | some i =>
    if i.version = "" ∨ i.version = lastVersion then
      { savedMarker := some i.version, broadcastTargets := [] }
    else
      { savedMarker := some i.version, broadcastTargets := subscriberIds }

/-- The two trigger kinds that can start a generation in the same period:
a `/preview` command (bot.py `cmd_preview`, which first consults the report
cache) and the scheduled weekly job (bot.py `_weekly_job`, which calls
`daily_ai_news.main` directly without consulting the cache). -/
inductive Trigger where
  | preview
  | weekly
deriving DecidableEq

/-- Program counter of one trigger's execution, at the granularity of the
shared-store accesses in the code: the preview's cache read, `main`'s call
to the generation collaborator, and `save_report_cache`'s write. -/
inductive TrigPC where
  | checkCache
  | generating
  | writeCache
  | finished
deriving DecidableEq

/-- The process-wide shared state: the report-cache file and the running
count of calls to the external generation collaborator. -/
structure SysState where
  cache : Option String
  genCalls : Nat
deriving DecidableEq

/-- Where each trigger's execution starts: a preview reads the cache first;
the weekly job generates unconditionally. -/
def initPC : Trigger → TrigPC
  | .preview => .checkCache
  | .weekly => .generating

/-- One atomic step of a trigger, exactly as the code behaves: a preview
whose cache read hits sends the cached body and finishes without
generating; a cache miss proceeds to generation; generation increments the
external-call count; the cache write stores the generated report.  The code
takes no lock anywhere on this path. -/
def stepTrig (pc : TrigPC) (s : SysState) : TrigPC × SysState :=
  match pc with
  | .checkCache =>
    match s.cache with
    | some _ => (.finished, s)
    | none => (.generating, s)
  | .generating => (.writeCache, { s with genCalls := s.genCalls + 1 })
  | .writeCache => (.finished, { s with cache := some r"report" })
  | .finished => (.finished, s)

/-- Interleaved execution of two triggers from an empty cache: each schedule
entry picks which trigger performs its next atomic step (`true` = first). -/
def runSched (t1 t2 : Trigger) (sched : List Bool) :
    TrigPC × TrigPC × SysState :=
  sched.foldl
    (fun st pick1 =>
      if pick1 then
        ((stepTrig st.1 st.2.2).1, st.2.1, (stepTrig st.1 st.2.2).2)
      else
        (st.1, (stepTrig st.2.1 st.2.2).1, (stepTrig st.2.1 st.2.2).2))
    (initPC t1, initPC t2, { cache := none, genCalls := 0 })

/-- The spec's example payload: a 9000-unit report (three long lines) to be
chunked at the chat channel's 4000-unit limit. -/
def bigReport : List Char :=
  List.replicate 2999 'a' ++ '\n' :: (List.replicate 2999 'b' ++ '\n' :: List.replicate 3000 'c')

end DailyAiNews

namespace DailyAiNews

theorem psJoin_nil : psJoin [] = [] := rfl

theorem psJoin_cons (l : List Char) (ls : List (List Char)) :
    psJoin (l :: ls) = '\n' :: l ++ psJoin ls := rfl

theorem psJoin_append (xs ys : List (List Char)) :
    psJoin (xs ++ ys) = psJoin xs ++ psJoin ys := by
  simp [psJoin]

theorem joinLines_cons_cons (l a : List Char) (ls : List (List Char)) :
    joinLines (l :: a :: ls) = l ++ '\n' :: joinLines (a :: ls) := rfl

theorem joinLines_cons (l : List Char) (ls : List (List Char)) :
    joinLines (l :: ls) = l ++ psJoin ls := by
  induction ls generalizing l with
  | nil => simp [joinLines, psJoin]
  | cons a as ih =>
    rw [joinLines_cons_cons, ih a, psJoin_cons]
    simp

theorem splitLines_ne_nil (s : List Char) : splitLines s ≠ [] := by
  cases s with
  | nil => simp [splitLines]
  | cons c cs =>
    simp only [splitLines]
    split
    · simp
    · split <;> simp

theorem joinLines_splitLines (s : List Char) : joinLines (splitLines s) = s := by
  induction s with
  | nil => simp [splitLines, joinLines]
  | cons c cs ih =>
    simp only [splitLines]
    split
    · rename_i hc
      subst hc
      cases h : splitLines cs with
      | nil => exact absurd h (splitLines_ne_nil cs)
      | cons l ls =>
        rw [h] at ih
        rw [joinLines_cons_cons, joinLines_cons] at *
        simpa using ih
    · rename_i hc
      cases h : splitLines cs with
      | nil => exact absurd h (splitLines_ne_nil cs)
      | cons l ls =>
        rw [h] at ih
        rw [joinLines_cons] at ih ⊢
        simpa using ih

theorem not_newline_mem_splitLines (s : List Char) :
    ∀ l ∈ splitLines s, '\n' ∉ l := by
  induction s with
  | nil => simp [splitLines]
  | cons c cs ih =>
    intro l hl
    simp only [splitLines] at hl
    split at hl
    · rcases List.mem_cons.mp hl with h | h
      · simp [h]
      · exact ih l h
    · rename_i hc
      cases h : splitLines cs with
      | nil => exact absurd h (splitLines_ne_nil cs)
      | cons x xs =>
        rw [h] at hl
        rcases List.mem_cons.mp hl with h2 | h2
        · subst h2
          intro hmem
          rcases List.mem_cons.mp hmem with h3 | h3
          · exact hc h3.symm
          · exact ih x (by simp [h]) h3
        · exact ih l (by simp [h, h2])

theorem splitLines_of_not_mem (s : List Char) (h : '\n' ∉ s) :
    splitLines s = [s] := by
  induction s with
  | nil => simp [splitLines]
  | cons c cs ih =>
    simp only [List.mem_cons, not_or] at h
    simp only [splitLines]
    rw [ih h.2]
    split
    · rename_i hc
      exact absurd hc.symm h.1
    · rfl

theorem splitLines_append (a b : List Char) :
    splitLines (a ++ '\n' :: b) = splitLines a ++ splitLines b := by
  induction a with
  | nil => simp [splitLines]
  | cons c cs ih =>
    show splitLines (c :: (cs ++ '\n' :: b)) = _
    simp only [splitLines]
    rw [ih]
    split
    · simp
    · cases h : splitLines cs with
      | nil => exact absurd h (splitLines_ne_nil cs)
      | cons x xs => simp

theorem joinLines_append_last (xs : List (List Char)) (y : List Char) (h : xs ≠ []) :
    joinLines (xs ++ [y]) = joinLines xs ++ '\n' :: y := by
  cases xs with
  | nil => exact absurd rfl h
  | cons x t =>
    rw [List.cons_append, joinLines_cons, joinLines_cons, psJoin_append]
    simp [psJoin]

theorem joinLines_extend_last (xs : List (List Char)) (y z : List Char) :
    joinLines (xs ++ [y ++ z]) = joinLines (xs ++ [y]) ++ z := by
  cases xs with
  | nil => simp [joinLines]
  | cons x t =>
    rw [List.cons_append, List.cons_append, joinLines_cons, joinLines_cons,
      psJoin_append, psJoin_append]
    simp [psJoin]

/-- Invariant of the `_split_chunks` accumulation loop: when every remaining
line is non-empty, strictly shorter than the limit and newline-free, and the
buffer is non-empty, the loop (a) keeps the buffer non-empty, (b) preserves
the newline-join of all accumulated text, (c) partitions the lines in order
across the chunks, and (d) keeps every chunk within the limit. -/
theorem chunkLoop_inv (maxLen : Nat) (rest : List (List Char)) :
    ∀ chunks buf, buf ≠ [] →
    (∀ l ∈ rest, l ≠ [] ∧ l.length < maxLen ∧ '\n' ∉ l) →
    (chunkLoop maxLen rest chunks buf).2 ≠ [] ∧
    joinLines ((chunkLoop maxLen rest chunks buf).1 ++ [(chunkLoop maxLen rest chunks buf).2]) =
      joinLines (chunks ++ [buf]) ++ psJoin rest ∧
    (((chunkLoop maxLen rest chunks buf).1 ++ [(chunkLoop maxLen rest chunks buf).2]).map splitLines).flatten =
      ((chunks ++ [buf]).map splitLines).flatten ++ rest ∧
    ((∀ c ∈ chunks, c.length ≤ maxLen) → buf.length ≤ maxLen →
      (∀ c ∈ (chunkLoop maxLen rest chunks buf).1, c.length ≤ maxLen) ∧
        (chunkLoop maxLen rest chunks buf).2.length ≤ maxLen) := by
  induction rest with
  | nil =>
    intro chunks buf hbuf _
    simp only [chunkLoop]
    refine ⟨hbuf, by simp [psJoin], by simp, ?_⟩
    intro hc hb
    exact ⟨hc, hb⟩
  | cons line rest ih =>
    intro chunks buf hbuf hlines
    obtain ⟨hl_ne, hl_len, hl_nl⟩ := hlines line (List.mem_cons_self line rest)
    have hrest : ∀ l ∈ rest, l ≠ [] ∧ l.length < maxLen ∧ '\n' ∉ l :=
      fun l hl => hlines l (List.mem_cons_of_mem line hl)
    simp only [chunkLoop]
    split
    · rename_i hflush
      obtain ⟨h1, h2, h3, h4⟩ := ih (chunks ++ [buf]) line hl_ne hrest
      refine ⟨h1, ?_, ?_, ?_⟩
      · rw [h2, joinLines_append_last (chunks ++ [buf]) line (by simp), psJoin_cons]
        simp
      · rw [h3]
        simp [splitLines_of_not_mem line hl_nl]
      · intro hc hb
        refine h4 ?_ (le_of_lt hl_len)
        intro c hcmem
        rcases List.mem_append.mp hcmem with h | h
        · exact hc c h
        · simp only [List.mem_singleton] at h
          subst h
          exact hb
    · rename_i hfit
      have hbe : buf.isEmpty = false := by
        cases buf with
        | nil => exact absurd rfl hbuf
        | cons _ _ => rfl
      rw [hbe]
      simp only [Bool.false_eq_true, if_false]
      have hbuf' : buf ++ '\n' :: line ≠ [] := by simp
      obtain ⟨h1, h2, h3, h4⟩ := ih chunks (buf ++ '\n' :: line) hbuf' hrest
      refine ⟨h1, ?_, ?_, ?_⟩
      · rw [h2]
        have hshape : buf ++ '\n' :: line = buf ++ ('\n' :: line) := rfl
        rw [hshape, joinLines_extend_last chunks buf ('\n' :: line), psJoin_cons]
        simp
      · rw [h3]
        have hsplit : splitLines (buf ++ '\n' :: line) = splitLines buf ++ [line] := by
          rw [splitLines_append, splitLines_of_not_mem line hl_nl]
        simp [hsplit]
      · intro hc hb
        refine h4 hc ?_
        simp only [List.length_append, List.length_cons]
        omega

/-- Guarded correctness of `_split_chunks`: when every line of the text is
non-empty and strictly shorter than the limit, the chunks join back to the
original text, their lines partition the original lines in order, and every
chunk is within the limit. -/
theorem split_chunks_spec (text : List Char) (maxLen : Nat)
    (hl : ∀ l ∈ splitLines text, l ≠ [] ∧ l.length < maxLen) :
    joinLines (split_chunks text maxLen) = text ∧
    ((split_chunks text maxLen).map splitLines).flatten = splitLines text ∧
    ∀ c ∈ split_chunks text maxLen, c.length ≤ maxLen := by
  by_cases hfits : text.length ≤ maxLen
  · have hsc : split_chunks text maxLen = [text] := by
      simp only [split_chunks, if_pos hfits]
    rw [hsc]
    refine ⟨rfl, by simp, ?_⟩
    intro c hc
    simp only [List.mem_singleton] at hc
    subst hc
    exact hfits
  · cases hsplit : splitLines text with
    | nil => exact absurd hsplit (splitLines_ne_nil text)
    | cons l0 ls =>
      have hl' : ∀ l ∈ l0 :: ls, l ≠ [] ∧ l.length < maxLen ∧ '\n' ∉ l := by
        intro l hmem
        rw [← hsplit] at hmem
        exact ⟨(hl l hmem).1, (hl l hmem).2, not_newline_mem_splitLines text l hmem⟩
      obtain ⟨hl0_ne, hl0_len, hl0_nl⟩ := hl' l0 (List.mem_cons_self l0 ls)
      have hrest : ∀ l ∈ ls, l ≠ [] ∧ l.length < maxLen ∧ '\n' ∉ l :=
        fun l hmem => hl' l (List.mem_cons_of_mem l0 hmem)
      have hstep : chunkLoop maxLen (l0 :: ls) [] [] = chunkLoop maxLen ls [] l0 := by
        simp only [chunkLoop, List.length_nil, Nat.zero_add, List.isEmpty_nil]
        rw [if_neg (by omega)]
        rfl
      obtain ⟨h1, h2, h3, h4⟩ := chunkLoop_inv maxLen ls [] l0 hl0_ne hrest
      have hne : (chunkLoop maxLen ls [] l0).2.isEmpty = false := by
        cases hh : (chunkLoop maxLen ls [] l0).2 with
        | nil => exact absurd hh h1
        | cons _ _ => rfl
      have hsc : split_chunks text maxLen =
          (chunkLoop maxLen ls [] l0).1 ++ [(chunkLoop maxLen ls [] l0).2] := by
        simp only [split_chunks, if_neg hfits, hsplit, hstep, hne,
          Bool.false_eq_true, if_false]
      rw [hsc]
      refine ⟨?_, ?_, ?_⟩
      · rw [h2]
        have hbase : joinLines (([] : List (List Char)) ++ [l0]) = l0 := by
          simp [joinLines]
        rw [hbase, ← joinLines_cons, ← hsplit, joinLines_splitLines]
      · rw [h3]
        simp [splitLines_of_not_mem l0 hl0_nl]
      · intro c hc
        have hlen := h4 (by simp) (le_of_lt hl0_len)
        rcases List.mem_append.mp hc with h | h
        · exact hlen.1 c h
        · simp only [List.mem_singleton] at h
          subst h
          exact hlen.2

end DailyAiNews

namespace DailyAiNews

theorem memKey_iff (id : String) (d : Registry) :
    memKey id d = true ↔ id ∈ get_chat_ids d := by
  simp only [memKey, List.any_eq_true, get_chat_ids, List.mem_map, beq_iff_eq]

theorem any_key_filter_ne (d : Registry) (c id : String) (h : ¬c = id) :
    (d.filter (fun kv => kv.1 != c)).any (fun kv => kv.1 == id) =
      d.any (fun kv => kv.1 == id) := by
  induction d with
  | nil => rfl
  | cons kv t ih =>
    by_cases hk : kv.1 = c
    · have hb : (kv.1 != c) = false := by simp [hk]
      simp only [List.filter_cons, hb, Bool.false_eq_true, if_false, List.any_cons, ih]
      have hb2 : (kv.1 == id) = false := by
        simp only [beq_eq_false_iff_ne, ne_eq, hk]
        intro he
        exact h he
      simp [hb2]
    · have hb : (kv.1 != c) = true := by simp [hk]
      simp [List.filter_cons, hb, List.any_cons, ih]

theorem any_key_filter_self (d : Registry) (c : String) :
    (d.filter (fun kv => kv.1 != c)).any (fun kv => kv.1 == c) = false := by
  induction d with
  | nil => rfl
  | cons kv t ih =>
    by_cases hk : kv.1 = c
    · have hb : (kv.1 != c) = false := by simp [hk]
      simp [List.filter_cons, hb, ih]
    · have hb : (kv.1 != c) = true := by simp [hk]
      simp [List.filter_cons, hb, List.any_cons, ih, hk]

theorem isSub_applyOp (d : Registry) (id : String) (op : SubOp) :
    is_subscribed id (applyOp d op) =
      if opId op = id then isSubOp op else is_subscribed id d := by
  cases op with
  | sub c u f n =>
    simp only [applyOp, subscribe, opId, isSubOp]
    by_cases hm : memKey c d
    · rw [if_pos hm]
      by_cases hc : c = id
      · subst hc
        simpa [is_subscribed] using hm
      · simp [hc]
    · rw [if_neg hm]
      by_cases hc : c = id
      · subst hc
        simp [is_subscribed, memKey, List.any_append]
      · simp only [hc, if_false]
        simp [is_subscribed, memKey, List.any_append,
          show (c == id) = false by simp [hc]]
  | unsub c =>
    simp only [applyOp, unsubscribe, opId, isSubOp]
    by_cases hm : memKey c d
    · rw [if_pos hm]
      by_cases hc : c = id
      · subst hc
        simp [is_subscribed, memKey, any_key_filter_self]
      · simp [is_subscribed, memKey, any_key_filter_ne d c id hc, hc]
    · rw [if_neg hm]
      by_cases hc : c = id
      · subst hc
        simp only [if_pos rfl]
        simpa [is_subscribed] using hm
      · simp [hc]

theorem replay_isSub_aux (ops : List SubOp) :
    ∀ (d : Registry) (id : String),
      is_subscribed id (ops.foldl applyOp d) =
        ops.foldl (fun acc op => if opId op = id then isSubOp op else acc)
          (is_subscribed id d) := by
  induction ops with
  | nil => intro d id; rfl
  | cons op rest ih =>
    intro d id
    simp only [List.foldl_cons]
    rw [ih (applyOp d op) id, isSub_applyOp]

theorem replay_is_subscribed (ops : List SubOp) (id : String) :
    is_subscribed id (replay ops) = lastOpIsSubscribe ops id := by
  have h := replay_isSub_aux ops [] id
  simpa [replay, lastOpIsSubscribe, is_subscribed, memKey] using h

theorem nodup_keys_applyOp (d : Registry) (op : SubOp)
    (h : (get_chat_ids d).Nodup) : (get_chat_ids (applyOp d op)).Nodup := by
  cases op with
  | sub c u f n =>
    simp only [applyOp, subscribe]
    by_cases hm : memKey c d
    · rw [if_pos hm]; exact h
    · rw [if_neg hm]
      have hkeys : get_chat_ids (d ++ [(c, ⟨c, u, f, n⟩)]) = get_chat_ids d ++ [c] := by
        simp [get_chat_ids]
      rw [hkeys]
      rw [(List.perm_append_singleton c (get_chat_ids d)).nodup_iff]
      rw [List.nodup_cons]
      refine ⟨?_, h⟩
      intro hmem
      exact hm ((memKey_iff c d).mpr hmem)
  | unsub c =>
    simp only [applyOp, unsubscribe]
    by_cases hm : memKey c d
    · rw [if_pos hm]
      have hsub1 : List.Sublist (d.filter (fun kv => kv.1 != c)) d :=
        List.filter_sublist d
      have hsub := hsub1.map (fun kv => kv.1)
      exact h.sublist (by simpa [get_chat_ids] using hsub)
    · rw [if_neg hm]; exact h

theorem nodup_keys_replay_aux (ops : List SubOp) :
    ∀ d : Registry, (get_chat_ids d).Nodup →
      (get_chat_ids (ops.foldl applyOp d)).Nodup := by
  induction ops with
  | nil => intro d h; exact h
  | cons op rest ih =>
    intro d h
    simp only [List.foldl_cons]
    exact ih (applyOp d op) (nodup_keys_applyOp d op h)

theorem nodup_keys_replay (ops : List SubOp) :
    (get_chat_ids (replay ops)).Nodup :=
  nodup_keys_replay_aux ops [] (by simp [get_chat_ids])

theorem lastOp_of_not_touched (ops : List SubOp) (id : String) :
    ∀ b : Bool, (∀ op ∈ ops, opId op ≠ id) →
      ops.foldl (fun acc op => if opId op = id then isSubOp op else acc) b = b := by
  induction ops with
  | nil => intro b _; rfl
  | cons op rest ih =>
    intro b h
    simp only [List.foldl_cons]
    rw [if_neg (h op (List.mem_cons_self op rest))]
    exact ih b (fun o ho => h o (List.mem_cons_of_mem op ho))

theorem lastOp_mem (ops : List SubOp) (id : String)
    (h : lastOpIsSubscribe ops id = true) : id ∈ ops.map opId := by
  by_contra hmem
  have hall : ∀ op ∈ ops, opId op ≠ id := by
    intro op ho he
    exact hmem (he ▸ List.mem_map_of_mem opId ho)
  rw [lastOpIsSubscribe, lastOp_of_not_touched ops id false hall] at h
  exact absurd h (by simp)

theorem replay_count (ops : List SubOp) :
    get_count (replay ops) =
      ((ops.map opId).dedup.filter (fun i => lastOpIsSubscribe ops i)).length := by
  have hperm : List.Perm (get_chat_ids (replay ops))
      ((ops.map opId).dedup.filter (fun i => lastOpIsSubscribe ops i)) := by
    rw [List.perm_ext_iff_of_nodup (nodup_keys_replay ops)
      ((List.nodup_dedup _).filter _)]
    intro a
    rw [List.mem_filter, List.mem_dedup, ← memKey_iff]
    constructor
    · intro hmem
      have hsub : lastOpIsSubscribe ops a = true := by
        rw [← replay_is_subscribed]
        exact hmem
      exact ⟨lastOp_mem ops a hsub, hsub⟩
    · rintro ⟨_, hsub⟩
      rw [show memKey a (replay ops) = is_subscribed a (replay ops) from rfl,
        replay_is_subscribed]
      exact hsub
  have hlen := hperm.length_eq
  simpa [get_count, get_chat_ids] using hlen

theorem subscribe_isNew (d : Registry) (id : String)
    (u f : Option String) (n : String) :
    (subscribe id u f n d).1 = !is_subscribed id d := by
  simp only [subscribe, is_subscribed]
  by_cases hm : memKey id d
  · simp [hm]
  · simp [hm]

theorem unsubscribe_wasPresent (d : Registry) (id : String) :
    (unsubscribe id d).1 = is_subscribed id d := by
  simp only [unsubscribe, is_subscribed]
  by_cases hm : memKey id d
  · simp [hm]
  · simp [hm]

theorem no_newline_replicate (n : Nat) (c : Char) (hc : ¬c = '\n') :
    '\n' ∉ List.replicate n c := by
  intro h
  rw [List.mem_replicate] at h
  exact hc h.2.symm

theorem bigReport_lines :
    splitLines bigReport =
      [List.replicate 2999 'a', List.replicate 2999 'b', List.replicate 3000 'c'] := by
  unfold bigReport
  rw [splitLines_append, splitLines_append,
    splitLines_of_not_mem _ (no_newline_replicate 2999 'a' (by decide)),
    splitLines_of_not_mem _ (no_newline_replicate 2999 'b' (by decide)),
    splitLines_of_not_mem _ (no_newline_replicate 3000 'c' (by decide))]
  rfl

theorem bigReport_hyps : ∀ l ∈ splitLines bigReport, l ≠ [] ∧ l.length < 4000 := by
  rw [bigReport_lines]
  intro l hl
  simp only [List.mem_cons, List.not_mem_nil, or_false] at hl
  rcases hl with h | h | h <;> subst h <;>
    exact ⟨by
        rw [← List.length_pos, List.length_replicate]
        norm_num,
      by
        rw [List.length_replicate]
        norm_num⟩

end DailyAiNews

namespace DailyAiNews

/-- Claim C1: when the report cache is present and readable and its report
field is non-empty, a `/preview` from a subscriber sends the cached body to
that requester and performs zero calls to the external generation
collaborator. -/
theorem claim_C1 (chatId : String) (subscribed : Bool) (info : CacheInfo)
    (r : String) (hs : subscribed = true) (hr : info.report = some r)
    (hne : r ≠ "") :
    cmd_preview chatId subscribed (some info) = .sentCached chatId r ∧
    previewGenCalls (cmd_preview chatId subscribed (some info)) = 0 := by
  subst hs
  simp [cmd_preview, hr, hne, previewGenCalls]

theorem claim_C1_witness :
    (true = true ∧
      (CacheInfo.mk (some r"2026-01-05T08:00") (some r"cached body")).report =
        some r"cached body" ∧ r"cached body" ≠ "") ∧
    (cmd_preview r"112966076" true
        (some (CacheInfo.mk (some r"2026-01-05T08:00") (some r"cached body"))) =
      .sentCached r"112966076" r"cached body" ∧
    previewGenCalls (cmd_preview r"112966076" true
        (some (CacheInfo.mk (some r"2026-01-05T08:00") (some r"cached body")))) = 0) :=
  ⟨⟨rfl, rfl, by decide⟩,
    claim_C1 r"112966076" true
      (CacheInfo.mk (some r"2026-01-05T08:00") (some r"cached body"))
      r"cached body" rfl rfl (by decide)⟩

/-- Claim C2 fails on the code: the repository takes no lock, so an
interleaving in which both previews read an empty cache before either cache
write completes makes two calls to the generation collaborator, with both
triggers running to completion. -/
theorem claim_C2_counterexample :
    (runSched .preview .preview [true, false, true, true, false, false]).1 =
        .finished ∧
    (runSched .preview .preview [true, false, true, true, false, false]).2.1 =
        .finished ∧
    (runSched .preview .preview
        [true, false, true, true, false, false]).2.2.genCalls = 2 := by
  refine ⟨rfl, rfl, rfl⟩

/-- Claim C2 amended: the code provides no single-flight guarantee; a
trigger reuses the in-flight generation's result only when the cache write
has completed before its own cache read.  When the two triggers run without
overlap (the second is a preview starting after the first finished),
exactly one generation call occurs and the second serves the cache. -/
theorem claim_C2 (t1 : Trigger) :
    runSched t1 .preview [true, true, true, false, false, false] =
      (.finished, .finished, { cache := some r"report", genCalls := 1 }) := by
  cases t1 <;> rfl

/-- Claim C3 fails on the code: with no marker file (`_get_last_version`
returns the empty string) and a non-empty deployed version, `_on_startup`
persists the marker and then broadcasts to every subscriber, because the
guard only suppresses the broadcast when the current version is empty or
equal to the stored marker. -/
theorem claim_C3_counterexample :
    on_startup (some (VersionInfo.mk r"1.0.0" r"2026-01-01" [r"initial release"]))
        "" [r"112966076"] =
      StartupResult.mk (some r"1.0.0") [r"112966076"] := by
  rfl

/-- Claim C3 amended: at first start with no persisted marker and a
non-empty deployed version, the version is treated as new: the marker is
persisted and the change note is broadcast to every current subscriber. -/
theorem claim_C3 (i : VersionInfo) (subs : List String)
    (hv : i.version ≠ "") :
    on_startup (some i) "" subs = StartupResult.mk (some i.version) subs := by
  simp [on_startup, hv]

theorem claim_C3_witness :
    (VersionInfo.mk r"1.1.0" r"2026-02-02" [r"note"]).version ≠ "" ∧
    on_startup (some (VersionInfo.mk r"1.1.0" r"2026-02-02" [r"note"])) ""
        [r"112966076", r"987654321"] =
      StartupResult.mk (some r"1.1.0") [r"112966076", r"987654321"] :=
  ⟨by decide,
    claim_C3 (VersionInfo.mk r"1.1.0" r"2026-02-02" [r"note"])
      [r"112966076", r"987654321"] (by decide)⟩

/-- Claim C4: when the external generation collaborator fails (raises), the
run aborts with no store mutation: both the report cache and the dedup
history are returned exactly as they were. -/
theorem claim_C4 (fetched : List Item) (gen : List Item → Option String)
    (now : String) (st : Stores)
    (hfail : gen (fetched.filter
      (fun i => !is_duplicate i.title st.prevTitles 10)) = none) :
    mainRun fetched gen now st = (none, st) := by
  simp [mainRun, hfail]

theorem claim_C4_witness :
    genAlwaysFails (([] : List Item).filter
      (fun i => !is_duplicate i.title (Stores.mk none []).prevTitles 10)) = none ∧
    mainRun [] genAlwaysFails r"2026-01-05" (Stores.mk none []) =
      (none, Stores.mk none []) :=
  ⟨rfl, claim_C4 [] genAlwaysFails r"2026-01-05" (Stores.mk none []) rfl⟩

/-- Claim C5 fails on the code as a universal statement: when a line reaches
the limit on its own, `_split_chunks` flushes the still-empty buffer as an
empty chunk, and rejoining the chunks with the newline separator inserts a
newline that was not in the original text. -/
theorem claim_C5_counterexample :
    split_chunks ['a', 'b', 'c'] 2 = [[], ['a', 'b', 'c']] ∧
    joinLines (split_chunks ['a', 'b', 'c'] 2) ≠ ['a', 'b', 'c'] := by
  decide

/-- Claim C5 amended: for every positive limit and every text whose lines
are all non-empty and strictly shorter than the limit (as is the case for a
9000-unit report of such lines chunked at a 4000-unit limit), joining the
chunks back with the newline separator reproduces the text exactly. -/
theorem claim_C5 (text : List Char) (maxLen : Nat) (hpos : 0 < maxLen)
    (hl : ∀ l ∈ splitLines text, l ≠ [] ∧ l.length < maxLen) :
    joinLines (split_chunks text maxLen) = text :=
  (split_chunks_spec text maxLen hl).1

theorem claim_C5_witness :
    bigReport.length = 9000 ∧
    (0 < 4000 ∧ ∀ l ∈ splitLines bigReport, l ≠ [] ∧ l.length < 4000) ∧
    joinLines (split_chunks bigReport 4000) = bigReport :=
  ⟨by
      unfold bigReport
      rw [List.length_append, List.length_cons, List.length_append,
        List.length_cons, List.length_replicate, List.length_replicate,
        List.length_replicate],
    ⟨by norm_num, bigReport_hyps⟩,
    claim_C5 bigReport 4000 (by norm_num) bigReport_hyps⟩

/-- Claim C6 fails on the code as a universal statement: a single line of
length at least the limit is emitted whole as an oversized chunk (and the
flushed empty buffer adds an empty chunk), so not every chunk respects the
limit. -/
theorem claim_C6_counterexample :
    ¬ ∀ c ∈ split_chunks ['a', 'b', 'c', 'd'] 3, c.length ≤ 3 := by
  decide

/-- Claim C6 amended: for every positive limit and every text whose lines
are all non-empty and strictly shorter than the limit, every chunk produced
by `_split_chunks` has length at most the limit, and the chunks are
contiguous and line-aligned: splitting each chunk back into lines and
concatenating, in chunk order, yields exactly the original line sequence. -/
theorem claim_C6 (text : List Char) (maxLen : Nat) (hpos : 0 < maxLen)
    (hl : ∀ l ∈ splitLines text, l ≠ [] ∧ l.length < maxLen) :
    (∀ c ∈ split_chunks text maxLen, c.length ≤ maxLen) ∧
    ((split_chunks text maxLen).map splitLines).flatten = splitLines text :=
  ⟨(split_chunks_spec text maxLen hl).2.2, (split_chunks_spec text maxLen hl).2.1⟩

theorem claim_C6_witness :
    (0 < 3 ∧ ∀ l ∈ splitLines ['x', 'y', '\n', 'z'], l ≠ [] ∧ l.length < 3) ∧
    ((∀ c ∈ split_chunks ['x', 'y', '\n', 'z'] 3, c.length ≤ 3) ∧
      ((split_chunks ['x', 'y', '\n', 'z'] 3).map splitLines).flatten =
        splitLines ['x', 'y', '\n', 'z']) :=
  ⟨⟨by decide, by decide⟩,
    claim_C6 ['x', 'y', '\n', 'z'] 3 (by decide) (by decide)⟩

/-- Claim C7 fails on the code as an exact characterisation: for the empty
title the lowercased 10-character prefix is the empty string, which is a
substring of every historical title, yet `_is_duplicate` guards `t and ...`
and classifies the item as not duplicate. -/
theorem claim_C7_counterexample :
    ¬ (is_duplicate [] [['x']] 10 = true ↔
        ∃ p ∈ [['x']], (lower []).take 10 <:+: lower p) := by
  intro h
  have hb : is_duplicate [] [['x']] 10 = true :=
    h.mpr ⟨['x'], by simp, ⟨[], lower ['x'], by simp [lower]⟩⟩
  exact absurd hb (by decide)

/-- Claim C7 amended: for every non-empty title, `_is_duplicate` with the
default threshold 10 classifies the item as duplicate exactly when the
first 10 characters of the lowercased title occur as a substring of some
historical title's lowercased form; the empty title is the sole guarded
exception. -/
theorem claim_C7 (title : List Char) (prev : List (List Char))
    (hne : title ≠ []) :
    is_duplicate title prev 10 = true ↔
      ∃ p ∈ prev, (lower title).take 10 <:+: lower p := by
  have ht : ((lower title).take 10).isEmpty = false := by
    cases title with
    | nil => exact absurd rfl hne
    | cons c cs => rfl
  simp [is_duplicate, ht, List.any_eq_true]

theorem claim_C7_witness :
    (r"OpenAI Releases gpt-5 today with new features").data ≠ [] ∧
    (is_duplicate (r"OpenAI Releases gpt-5 today with new features").data
        [(r"OpenAI releases GPT-5 today").data] 10 = true ↔
      ∃ p ∈ [(r"OpenAI releases GPT-5 today").data],
        (lower (r"OpenAI Releases gpt-5 today with new features").data).take 10
          <:+: lower p) :=
  ⟨by decide,
    claim_C7 (r"OpenAI Releases gpt-5 today with new features").data
      [(r"OpenAI releases GPT-5 today").data] (by decide)⟩

/-- Claim C8: replaying any subscribe/unsubscribe sequence from the empty
registry, `is_subscribed` matches the last operation applied to each id,
`get_count` equals the number of distinct ids whose last operation was a
subscribe, `subscribe` returns true exactly when the id was absent, and
`unsubscribe` returns true exactly when it was present. -/
theorem claim_C8 :
    (∀ (ops : List SubOp) (id : String),
      is_subscribed id (replay ops) = lastOpIsSubscribe ops id) ∧
    (∀ ops : List SubOp,
      get_count (replay ops) =
        ((ops.map opId).dedup.filter (fun i => lastOpIsSubscribe ops i)).length) ∧
    (∀ (d : Registry) (id : String) (u f : Option String) (n : String),
      (subscribe id u f n d).1 = !is_subscribed id d) ∧
    (∀ (d : Registry) (id : String),
      (unsubscribe id d).1 = is_subscribed id d) :=
  ⟨replay_is_subscribed, replay_count,
    fun d id u f n => subscribe_isNew d id u f n,
    fun d id => unsubscribe_wasPresent d id⟩

/-- Claim C9: the persisted dedup history is `titles[:80]`: at most 80
entries and a prefix of the given list in its original order, so the
history never grows unbounded. -/
theorem claim_C9 (titles : List (List Char)) :
    (save_prev_titles titles).length ≤ 80 ∧
      save_prev_titles titles <+: titles := by
  constructor
  · simp only [save_prev_titles, List.length_take]
    omega
  · exact ⟨titles.drop 80, List.take_append_drop 80 titles⟩

/-- Claim C10: an empty title is never classified as duplicate, for any
history and any threshold, because the empty prefix is guarded against —
even though the empty string is a substring of every lowercased historical
title. -/
theorem claim_C10 (prev : List (List Char)) (threshold : Nat) :
    is_duplicate [] prev threshold = false ∧
      ∀ p ∈ prev, ([] : List Char) <:+: lower p := by
  constructor
  · simp [is_duplicate, lower]
  · intro p _
    exact ⟨[], lower p, by simp⟩

end DailyAiNews

namespace DailyAiNews

theorem claim_C2_witness :
    runSched .preview .preview [true, true, true, false, false, false] =
      (.finished, .finished, { cache := some r"report", genCalls := 1 }) :=
  claim_C2 .preview

theorem claim_C8_witness :
    is_subscribed r"112966076"
        (replay [SubOp.sub r"112966076" none none r"2026-01-05"]) =
      lastOpIsSubscribe [SubOp.sub r"112966076" none none r"2026-01-05"]
        r"112966076" :=
  claim_C8.1 [SubOp.sub r"112966076" none none r"2026-01-05"] r"112966076"

theorem claim_C9_witness :
    (save_prev_titles [['t'], ['u']]).length ≤ 80 ∧
      save_prev_titles [['t'], ['u']] <+: [['t'], ['u']] :=
  claim_C9 [['t'], ['u']]

theorem claim_C10_witness :
    is_duplicate [] [['y']] 10 = false ∧
      ∀ p ∈ [['y']], ([] : List Char) <:+: lower p :=
  claim_C10 [['y']] 10

end DailyAiNews
